import Mathlib

/-!
Verification of the KIS brokerage protocol client
(`src/kis/client.py`, `src/kis/endpoints.py`, `src/kis/ws_client.py`).

Shallow embedding conventions:
* Pure functions of the Python source become Lean functions on `String`,
  `List`, `Option`, `Except`.
* Durations are modelled in milliseconds as `Nat` (the Python constants
  `0.25`, `0.5` s are the exact values `250`, `500` ms), or as `ℚ` where
  arbitrary clock readings are folded.
* Clock instants (`time.monotonic()`, `datetime.now()`) are modelled as
  explicit numeric parameters.
* A raised Python exception becomes `Except`/`Option` `none`/`error`.
* Cooperative `asyncio` concurrency is modelled as an explicit interleaving
  of atomic segments: a coroutine runs uninterrupted between `await` points,
  and the scheduler is an arbitrary list of coroutine indices.
-/

namespace KIS

/-! ## Streaming frame parser (`ws_client.py`, `_parse_price_message`) -/

-- Field indices of the ^-delimited H0STCNT0 payload (ws_client.py lines 31-40)
def F_STOCK_CODE : Nat := 0
def F_TIME : Nat := 1
def F_PRICE : Nat := 2
def F_SIGN : Nat := 3
def F_CHANGE : Nat := 4
def F_CHANGE_RATE : Nat := 5
def F_OPEN : Nat := 7
def F_HIGH : Nat := 8
def F_LOW : Nat := 9
def F_VOLUME : Nat := 13

/-- The dict returned by `_parse_price_message` on success. -/
structure PriceTick where
  stock_code : String
  price : String
  change_sign : String
  change_amount : String
  change_rate : String
  open_price : String  -- the dict key is "open"
  high : String
  low : String
  volume : String
  deriving Repr, DecidableEq

/-- Python `s.split(sep)` for a one-character separator, on the character
list: splitting never drops pieces, `[] → [[]]`, and a trailing separator
yields a trailing empty piece. -/
def splitChars (sep : Char) : List Char → List (List Char)
  | [] => [[]]
  | c :: rest =>
    match splitChars sep rest with
    | [] => [[c]]
    | g :: gs => if c = sep then [] :: g :: gs else (c :: g) :: gs

/-- Python `s.split(sep)` on strings (both separators in the source,
`"|"` and `"^"`, are single characters). -/
def pySplit (sep : Char) (s : String) : List String :=
  (splitChars sep s.data).map String.mk

/-- Embedding of `KISWebSocket._parse_price_message` (ws_client.py 122-155).
`raw.split("|")` becomes `pySplit`, `parts[i]` becomes `List.getD`
(indices are in range whenever they are read, by the guards). -/
def parse_price_message (raw : String) : Option PriceTick :=
  let parts := pySplit '|' raw
  if parts.length < 4 then none
  else
    let encrypted := parts.getD 0 ""
    let tr_id := parts.getD 1 ""
    if encrypted ≠ "0" ∨ tr_id ≠ "H0STCNT0" then none
    else
      let fields := pySplit '^' (parts.getD 3 "")
      if fields.length ≤ F_VOLUME then none
      else
        some {
          stock_code := fields.getD F_STOCK_CODE "",
          price := fields.getD F_PRICE "",
          change_sign := fields.getD F_SIGN "",
          change_amount := fields.getD F_CHANGE "",
          change_rate := fields.getD F_CHANGE_RATE "",
          open_price := fields.getD F_OPEN "",
          high := fields.getD F_HIGH "",
          low := fields.getD F_LOW "",
          volume := fields.getD F_VOLUME "" }

/-! ## Endpoint registry (`endpoints.py`) -/

/-- Embedding of the `TR_IDS` dict (endpoints.py 17-30); a Python dict of
distinct literal keys is an association list. -/
def TR_IDS : List ((String × String) × String) :=
  [ (("buy", "live"), "TTTC0802U"),
    (("buy", "paper"), "VTTC0802U"),
    (("sell", "live"), "TTTC0801U"),
    (("sell", "paper"), "VTTC0801U"),
    (("modify", "live"), "TTTC0803U"),
    (("modify", "paper"), "VTTC0803U"),
    (("balance", "live"), "TTTC8434R"),
    (("balance", "paper"), "VTTC8434R"),
    (("available_cash", "live"), "TTTC8908R"),
    (("available_cash", "paper"), "VTTC8908R"),
    (("price", "any"), "FHKST01010100"),
    (("daily_price", "any"), "FHKST01010400") ]

/-- Python dict lookup `TR_IDS.get(key)` / `key in TR_IDS`. -/
def lookupTR (k : String × String) : Option String :=
  (TR_IDS.find? (fun e => e.1 = k)).map (·.2)

/-- The spec's `ConfigurationError`, realized in the code as the `KeyError`
raised by `TR_IDS[(operation, mode)]` on a missing key. -/
inductive RegistryError where
  | keyError (operation mode : String)
  deriving Repr, DecidableEq

/-- Embedding of `get_tr_id` (endpoints.py 33-54):
`if (operation, "any") in TR_IDS: return TR_IDS[(operation, "any")]`,
otherwise `return TR_IDS[(operation, mode)]`, whose missing-key failure is
the `error` case. -/
def get_tr_id (operation mode : String) : Except RegistryError String :=
  match lookupTR (operation, "any") with
  | some t => Except.ok t
  | none =>
    match lookupTR (operation, mode) with
    | some t => Except.ok t
    | none => Except.error (RegistryError.keyError operation mode)

/-! ## Daily prices (`client.py`, `get_daily_prices` tail, lines 252-260) -/

/-- One row of `output2`, parsed by `DailyPrice(**item)`; its fields are
irrelevant to the truncation claim, so rows are abstract. -/
def get_daily_prices_core {α : Type} (rt_cd : String) (output2 : List α)
    (count : Nat) : Option (List α) :=
  if rt_cd ≠ "0" then none  -- RuntimeError("KIS daily-price API error ...")
  else some (output2.take count)  -- items[:count]

/-! ## Balance (`client.py`, `get_balance` tail, lines 390-406) -/

/-- The totals dict of `output2`; `.get(k, "0")` reads become `Option`
fields with a `getD "0"` default. -/
structure TotalsBlock where
  tot_evlu_amt : Option String
  evlu_pfls_smtl_amt : Option String
  deriving Repr, DecidableEq

/-- The JSON shape of the `output2` section: either a list or a bare object. -/
inductive Output2 where
  | list (xs : List TotalsBlock)
  | obj (t : TotalsBlock)
  deriving Repr, DecidableEq

/-- Unwrap step `totals[0] if isinstance(totals, list) and totals else totals`
(client.py 400).  An empty list falls through to `totals` itself, on which
the subsequent `.get` calls raise `AttributeError`: the `none` case. -/
def total_block : Output2 → Option TotalsBlock
  | Output2.list (t :: _) => some t
  | Output2.list [] => none
  | Output2.obj t => some t

/-- The `AccountBalance` model as built by `get_balance` (client.py 402-406). -/
structure AccountBalance (Item : Type) where
  items : List Item
  total_evlu_amt : String
  total_evlu_pfls_amt : String

/-- Embedding of the response-interpretation tail of `get_balance`
(client.py 390-406): the `rt_cd` gate, `output1` item parsing (abstract),
the `output2` unwrap and the two `.get(_, "0")` reads.  `none` models the
raised `RuntimeError`/`AttributeError`. -/
def get_balance_core {Item : Type} (rt_cd : String) (output1 : List Item)
    (output2 : Output2) : Option (AccountBalance Item) :=
  if rt_cd ≠ "0" then none
  else
    match total_block output2 with
    | none => none
    | some t =>
      some {
        items := output1,
        total_evlu_amt := t.tot_evlu_amt.getD "0",
        total_evlu_pfls_amt := t.evlu_pfls_smtl_amt.getD "0" }

/-! ## Request governor: retry with backoff (`client.py`, `_request_with_retry`) -/

-- Class constants (client.py 43-48), durations in milliseconds
def REQUEST_INTERVAL_MS : Nat := 250
def MAX_RETRIES : Nat := 3
def RETRY_BACKOFF_MS : Nat := 500

/-- Observable events of one `_request_with_retry` call.  `send k st` is the
`self.client.request` of attempt `k` receiving status `st`; `sleepEv` is the
`asyncio.sleep(wait)` backoff; `throttleEv` the `await self._throttle()`. -/
inductive Event where
  | throttleEv
  | send (attempt status : Nat)
  | sleepEv (ms : Nat)
  deriving Repr, DecidableEq

/-- The `for attempt in range(self._MAX_RETRIES)` loop (client.py 126-141),
responses given by an oracle `resp : attempt index → HTTP status`.
Returns the event trace and either `ok k` (the response of attempt `k` is
returned, line 130) or `error lastExc` (line 143 re-raises the
`HTTPStatusError` built from the last 5xx attempt, carried as its index). -/
def retryLoop (resp : Nat → Nat) : Nat → Nat → Option Nat →
    List Event × Except (Option Nat) Nat
  | _, 0, lastExc => ([], Except.error lastExc)
  | attempt, fuel + 1, _ =>
    let st := resp attempt
    if st < 500 then
      ([Event.throttleEv, Event.send attempt st], Except.ok attempt)
    else
      let wait := RETRY_BACKOFF_MS * 2 ^ attempt
      let rest := retryLoop resp (attempt + 1) fuel (some attempt)
      (Event.throttleEv :: Event.send attempt st :: Event.sleepEv wait :: rest.1,
       rest.2)

/-- Embedding of `_request_with_retry` (client.py 118-143). -/
def request_with_retry (resp : Nat → Nat) : List Event × Except (Option Nat) Nat :=
  retryLoop resp 0 MAX_RETRIES none

/-- Number of HTTP requests actually issued in a trace. -/
def numSends (tr : List Event) : Nat :=
  (tr.filter fun e => match e with | Event.send _ _ => true | _ => false).length

/-- Holds (as `true`) iff every `send` in the trace is immediately preceded
by a throttle event. -/
def sendsThrottled : List Event → Bool
  | [] => true
  | Event.throttleEv :: Event.send _ _ :: rest => sendsThrottled rest
  | Event.send _ _ :: _ => false
  | _ :: rest => sendsThrottled rest

/-! ## Request governor: throttle (`client.py`, `_throttle`, lines 109-116)

The `_rate_lock` is held for the whole body, including the sleep, so the
critical sections of concurrent callers execute in sequence; `time.monotonic`
guarantees each section's clock reading is at least the send time recorded by
the previous section.  One section is therefore a function of the previously
recorded send time and a clock advance `delta` since then, and a whole
concurrent history is a fold over the list of advances.  `asyncio.sleep(d)`
is modelled as advancing the clock by exactly `d` (a longer real sleep only
increases the spacing being bounded from below). -/

def REQUEST_INTERVAL_Q : ℚ := 1 / 4

/-- One `_throttle` critical section: read `now`, sleep the remainder of the
interval if `elapsed < interval`, and return the newly recorded
`_last_request_time`. -/
def throttle_step (last delta : ℚ) : ℚ :=
  let now := last + delta
  let elapsed := now - last
  if elapsed < REQUEST_INTERVAL_Q then now + (REQUEST_INTERVAL_Q - elapsed)
  else now

/-- Recorded send times of a sequence of throttle sections, `last` being the
previously recorded `_last_request_time` (initially `0.0`). -/
def send_times (last : ℚ) : List ℚ → List ℚ
  | [] => []
  | d :: ds =>
    let t := throttle_step last d
    t :: send_times t ds

/-! ## Token manager (`client.py`, `get_token`, lines 66-99) -/

/-- The token cache fields `_token` / `_token_expires` (client.py 56-57);
expiry instants are integer seconds. -/
structure TokenState where
  token : Option String
  expires : Option Int
  deriving Repr, DecidableEq

/-- Python truthiness of `self._token`: `None` and `""` are falsy. -/
def truthy : Option String → Bool
  | none => false
  | some t => t ≠ ""

/-- The guard `self._token and self._token_expires and datetime.now() <
self._token_expires` (client.py 75 and 80). -/
def validAt (s : TokenState) (now : Int) : Bool :=
  truthy s.token &&
    match s.expires with
    | none => false
    | some e => decide (now < e)

/-- The token endpoint's response body (`TokenResponse`, models.py). -/
structure TokenResp where
  access_token : String
  expires_in : Int
  deriving Repr, DecidableEq

/-- The cache written by a refresh (client.py 93-96): token := access_token,
expiry := now + (expires_in - 60). -/
def refreshedTS (now : Int) (r : TokenResp) : TokenState :=
  { token := some r.access_token,
    expires := some (now + (r.expires_in - 60)) }

/-- Run of `get_token` by a single caller with no interleaving: the unlocked
check at clock `t1` (line 75), the post-lock re-check at clock `t2`
(line 80), and — if both fail — the refresh completing at clock `t3`
(lines 89-99).  Returns (new cache, returned token, whether a POST to the
token endpoint was made). -/
def get_token_seq (s : TokenState) (t1 t2 t3 : Int) (r : TokenResp) :
    TokenState × String × Bool :=
  if validAt s t1 then (s, s.token.getD "", false)
  else if validAt s t2 then (s, s.token.getD "", false)
  else (refreshedTS t3 r, r.access_token, true)

/-! ## Token manager under concurrency (claim C1)

Cooperative-interleaving model of `get_token`.  A coroutine is atomic
between `await` points, which splits `get_token` into three segments:

* `start`: the unlocked fast-path check (75-76); either returns the cached
  token or proceeds to `async with self._token_lock` (an await point);
* `waitLock`: runs when the lock is free; atomically acquires the lock,
  re-checks (80-81) — returning the cached token and releasing — or issues
  the POST (89) and suspends awaiting the response;
* `inflight`: the response has arrived; the rest (91-99) is synchronous:
  parse, write the cache, return the new token, release the lock.

The wall clock is frozen at `now` for the burst (the claim quantifies over
calls issued while the cache is empty or expired, i.e. a burst short
relative to the token lifetime), and the token endpoint's response is a
fixed `r`.  The scheduler is an arbitrary list of coroutine indices;
choosing a non-runnable coroutine (finished, or blocked on the lock) is a
no-op, so every interleaving is a schedule. -/

/-- Program counter of one `get_token` caller. -/
inductive CoPC where
  | start
  | waitLock
  | inflight
  | done (result : String)
  deriving Repr, DecidableEq

/-- Shared state: the lock (holder index when held), the token cache, a
ghost counter of POSTs to the token endpoint, and the coroutines. -/
structure SysState where
  lock : Option Nat
  ts : TokenState
  refreshCount : Nat
  cos : List CoPC
  deriving Repr, DecidableEq

/-- One atomic segment of coroutine `i`; `none` when `i` cannot run. -/
def coStep (now : Int) (r : TokenResp) (s : SysState) (i : Nat) :
    Option SysState :=
  match s.cos[i]? with
  | none => none
  | some CoPC.start =>
    if validAt s.ts now then
      some { s with cos := s.cos.set i (CoPC.done (s.ts.token.getD "")) }
    else
      some { s with cos := s.cos.set i CoPC.waitLock }
  | some CoPC.waitLock =>
    match s.lock with
    | some _ => none  -- blocked: the lock is held
    | none =>
      if validAt s.ts now then
        some { s with cos := s.cos.set i (CoPC.done (s.ts.token.getD "")) }
      else
        some { s with lock := some i, cos := s.cos.set i CoPC.inflight }
  | some CoPC.inflight =>
    some { s with
      lock := none,
      ts := refreshedTS now r,
      refreshCount := s.refreshCount + 1,
      cos := s.cos.set i (CoPC.done r.access_token) }
  | some (CoPC.done _) => none

/-- Run a schedule (arbitrary interleaving) from a state. -/
def runSched (now : Int) (r : TokenResp) : SysState → List Nat → SysState
  | s, [] => s
  | s, i :: rest =>
    match coStep now r s i with
    | none => runSched now r s rest
    | some s2 => runSched now r s2 rest

/-- Initial state: `n` concurrent `get_token` callers against cache `ts0`. -/
def initState (n : Nat) (ts0 : TokenState) : SysState :=
  { lock := none, ts := ts0, refreshCount := 0,
    cos := List.replicate n CoPC.start }

/-- The backoff sleeps of a trace, in order. -/
def sleepsOf (tr : List Event) : List Nat :=
  tr.filterMap fun e => match e with | Event.sleepEv m => some m | _ => none

/-- Inductive invariant of the interleaved token-manager system when the
initial cache `ts0` is empty or expired at the frozen clock `now`:
at most one refresh has happened; the cache is still `ts0` before it and the
refreshed cache after it; the in-flight coroutine, if any, is exactly the
lock holder and precedes the refresh; and every finished caller obtained the
(unique) refreshed token. -/
def Inv (now : Int) (r : TokenResp) (ts0 : TokenState) (s : SysState) : Prop :=
  s.refreshCount ≤ 1
  ∧ (s.refreshCount = 0 → s.ts = ts0)
  ∧ (s.refreshCount = 1 → s.ts = refreshedTS now r)
  ∧ (∀ j, s.cos[j]? = some CoPC.inflight → s.lock = some j ∧ s.refreshCount = 0)
  ∧ (∀ j, s.lock = some j → s.cos[j]? = some CoPC.inflight)
  ∧ (∀ res, CoPC.done res ∈ s.cos → res = r.access_token ∧ s.refreshCount = 1)

/-- Invariant when the initial cache `ts0` is valid at `now`: nothing is
refreshed, the lock is never taken, and every finished caller obtained the
cached token. -/
def InvV (ts0 : TokenState) (s : SysState) : Prop :=
  s.ts = ts0 ∧ s.refreshCount = 0 ∧ s.lock = none
  ∧ ∀ pc ∈ s.cos, pc = CoPC.start ∨ pc = CoPC.done (ts0.token.getD "")

/-! ## Theorems -/

/-- C4: a streaming frame decodes to a tick exactly when it has at least 4
pipe-delimited segments, encryption flag `"0"`, transaction id `"H0STCNT0"`,
and a caret-payload of more than 13 fields; the tick's stock code is payload
field 0 and its price payload field 2; the sample frame decodes to stock
code `"005930"` and price `"71000"`; encrypted frames, other transaction
ids, short frames and short payloads decode to `none` (no exception: the
parser is total). -/
theorem c4_frame_decoder :
    (∀ raw : String,
      (parse_price_message raw).isSome = true ↔
        (4 ≤ (pySplit '|' raw).length ∧
          (pySplit '|' raw).getD 0 "" = "0" ∧
          (pySplit '|' raw).getD 1 "" = "H0STCNT0" ∧
          13 < (pySplit '^' ((pySplit '|' raw).getD 3 "")).length))
    ∧ (∀ raw (t : PriceTick), parse_price_message raw = some t →
        t.stock_code = (pySplit '^' ((pySplit '|' raw).getD 3 "")).getD 0 "" ∧
        t.price = (pySplit '^' ((pySplit '|' raw).getD 3 "")).getD 2 "")
    ∧ parse_price_message
        "0|H0STCNT0|1|005930^093000^71000^2^500^0.7^6^70500^71500^70000^3000^1^2^12345"
        = some { stock_code := "005930", price := "71000", change_sign := "2",
                 change_amount := "500", change_rate := "0.7",
                 open_price := "70500", high := "71500", low := "70000",
                 volume := "12345" }
    ∧ parse_price_message
        "1|H0STCNT0|1|005930^093000^71000^2^500^0.7^6^70500^71500^70000^3000^1^2^12345"
        = none
    ∧ parse_price_message
        "0|H0STASP0|1|005930^093000^71000^2^500^0.7^6^70500^71500^70000^3000^1^2^12345"
        = none
    ∧ parse_price_message "0|H0STCNT0" = none
    ∧ parse_price_message "0|H0STCNT0|1|005930^093000^71000" = none := by
  refine ⟨fun raw => ?_, fun raw t h => ?_, by decide, by decide, by decide,
    by decide, by decide⟩
  · simp only [parse_price_message, F_VOLUME]
    split_ifs with h1 h2 h3
    · simp only [Option.isSome_none, Bool.false_eq_true, false_iff]
      rintro ⟨hge, -, -, -⟩
      omega
    · simp only [Option.isSome_none, Bool.false_eq_true, false_iff]
      rintro ⟨-, he, ht, -⟩
      rcases h2 with h2 | h2
      · exact h2 he
      · exact h2 ht
    · simp only [Option.isSome_none, Bool.false_eq_true, false_iff]
      rintro ⟨-, -, -, hlen⟩
      omega
    · push_neg at h2
      simp only [Option.isSome_some, true_iff]
      exact ⟨by omega, h2.1, h2.2, by omega⟩
  · simp only [parse_price_message, F_VOLUME] at h
    split_ifs at h
    injection h with h2
    subst h2
    exact ⟨rfl, rfl⟩

/-- C4 witness: the general conjuncts applied at the sample frame. -/
theorem c4_frame_decoder_witness :
    (parse_price_message
      "0|H0STCNT0|1|005930^093000^71000^2^500^0.7^6^70500^71500^70000^3000^1^2^12345").isSome
      = true ∧
    ({ stock_code := "005930", price := "71000", change_sign := "2",
       change_amount := "500", change_rate := "0.7", open_price := "70500",
       high := "71500", low := "70000", volume := "12345" } : PriceTick).stock_code
      = (pySplit '^' ((pySplit '|'
          "0|H0STCNT0|1|005930^093000^71000^2^500^0.7^6^70500^71500^70000^3000^1^2^12345").getD
            3 "")).getD 0 "" := by
  constructor
  · exact (c4_frame_decoder.1 _).mpr (by decide)
  · exact (c4_frame_decoder.2.1 _ _ c4_frame_decoder.2.2.1).1

/-- C5: `get_balance` yields the same `Balance` when the totals section
`output2` is the single-element list `[t]` as when it is the bare object
`t`: the list is unwrapped, not treated as an error. -/
theorem c5_output2_unwrap :
    ∀ (Item : Type) (rt_cd : String) (output1 : List Item) (t : TotalsBlock),
      get_balance_core rt_cd output1 (Output2.list [t]) =
        get_balance_core rt_cd output1 (Output2.obj t) := by
  intro Item rt_cd output1 t
  rfl

/-- C6: `get_daily_prices` returns at most `count` entries — exactly the
first `min count length` entries of the upstream list, in upstream order —
and fewer than `count` when the upstream returns fewer; concretely, asking
for 5 out of 7 returns exactly the first 5. -/
theorem c6_daily_truncation :
    (∀ (α : Type) (rt_cd : String) (items : List α) (count : Nat)
        (res : List α),
      get_daily_prices_core rt_cd items count = some res →
        res.length ≤ count ∧
        res.length = min count items.length ∧
        (∀ i, i < count → res[i]? = items[i]?) ∧
        (items.length < count → res.length = items.length))
    ∧ get_daily_prices_core "0" [1, 2, 3, 4, 5, 6, 7] 5 =
        some [(1 : Nat), 2, 3, 4, 5] := by
  constructor
  · intro α rt_cd items count res h
    simp only [get_daily_prices_core] at h
    split_ifs at h
    injection h with h2
    subst h2
    refine ⟨?_, by simp [List.length_take], ?_, ?_⟩
    · simp [List.length_take]
    · intro i hi
      exact List.getElem?_take_of_lt hi
    · intro hlt
      simp [List.length_take]
      omega
  · decide

/-- C6 witness: the general conjunct applied at a concrete upstream list
shorter than requested. -/
theorem c6_daily_truncation_witness :
    get_daily_prices_core "0" [(10 : Nat), 20, 30] 5 = some [10, 20, 30] ∧
    ([(10 : Nat), 20, 30].length ≤ 5 ∧
      [(10 : Nat), 20, 30].length = min 5 [(10 : Nat), 20, 30].length ∧
      (∀ i, i < 5 → [(10 : Nat), 20, 30][i]? = [(10 : Nat), 20, 30][i]?) ∧
      ([(10 : Nat), 20, 30].length < 5 →
        [(10 : Nat), 20, 30].length = [(10 : Nat), 20, 30].length)) :=
  ⟨rfl, c6_daily_truncation.1 Nat "0" [10, 20, 30] 5 [10, 20, 30] rfl⟩

/-- C8: looking up a (operation, mode) pair defined neither under the
requested mode nor under the wildcard mode `"any"` fails (the spec's
`ConfigurationError`, the code's `KeyError`); defined pairs return the
registered identifier; the mode-independent operations `price` and
`daily_price` resolve via the wildcard entry whatever the requested mode. -/
theorem c8_registry_lookup :
    (∀ operation mode : String,
      (get_tr_id operation mode).isOk = false ↔
        (lookupTR (operation, mode) = none ∧
          lookupTR (operation, "any") = none))
    ∧ (∀ entry, entry ∈ TR_IDS →
        get_tr_id entry.1.1 entry.1.2 = Except.ok entry.2)
    ∧ (∀ mode, get_tr_id "price" mode = Except.ok "FHKST01010100" ∧
        get_tr_id "daily_price" mode = Except.ok "FHKST01010400") := by
  refine ⟨fun operation mode => ?_, fun entry hmem => ?_, fun mode => ⟨rfl, rfl⟩⟩
  · cases ha : lookupTR (operation, "any") with
    | some t => simp [get_tr_id, ha, Except.isOk, Except.toBool]
    | none =>
      cases hm : lookupTR (operation, mode) with
      | some t => simp [get_tr_id, ha, hm, Except.isOk, Except.toBool]
      | none => simp [get_tr_id, ha, hm, Except.isOk, Except.toBool]
  · fin_cases hmem <;> rfl

/-- C8 witness: a defined trading pair resolves, an undefined pair fails. -/
theorem c8_registry_lookup_witness :
    get_tr_id "buy" "live" = Except.ok "TTTC0802U" ∧
    (get_tr_id "order" "live").isOk = false := by
  constructor
  · exact c8_registry_lookup.2.1 (("buy", "live"), "TTTC0802U") (by decide)
  · exact (c8_registry_lookup.1 "order" "live").mpr ⟨rfl, rfl⟩

/-- Helper: the exact run of `_request_with_retry` when every attempt gets a
5xx status. -/
theorem retry_allfail_run (resp : Nat → Nat) (h0 : ¬resp 0 < 500)
    (h1 : ¬resp 1 < 500) (h2 : ¬resp 2 < 500) :
    request_with_retry resp =
      ([Event.throttleEv, Event.send 0 (resp 0), Event.sleepEv 500,
        Event.throttleEv, Event.send 1 (resp 1), Event.sleepEv 1000,
        Event.throttleEv, Event.send 2 (resp 2), Event.sleepEv 2000],
       Except.error (some 2)) := by
  simp [request_with_retry, MAX_RETRIES, RETRY_BACKOFF_MS, retryLoop,
    h0, h1, h2]

/-- C2: the first response with status below 500 (all 4xx included) is
returned at once, with no further attempt and no backoff after it; if all
`MAX_RETRIES = 3` attempts return a 5xx status, the error carrying the last
attempt is raised after exactly 3 attempts, the delay between consecutive
attempts being 500 ms then 1000 ms (the exponential schedule). -/
theorem c2_retry_policy :
    ∀ resp : Nat → Nat,
      (∀ k, k < MAX_RETRIES → resp k < 500 → (∀ j, j < k → 500 ≤ resp j) →
        (request_with_retry resp).2 = Except.ok k ∧
        numSends (request_with_retry resp).1 = k + 1 ∧
        (request_with_retry resp).1.getLast? = some (Event.send k (resp k)))
      ∧ ((∀ j, j < MAX_RETRIES → 500 ≤ resp j) →
        request_with_retry resp =
          ([Event.throttleEv, Event.send 0 (resp 0), Event.sleepEv 500,
            Event.throttleEv, Event.send 1 (resp 1), Event.sleepEv 1000,
            Event.throttleEv, Event.send 2 (resp 2), Event.sleepEv 2000],
           Except.error (some 2))) := by
  intro resp
  constructor
  · intro k hk hsucc hprev
    have hk3 : k < 3 := hk
    interval_cases k
    · refine ⟨?_, ?_, ?_⟩ <;>
        simp [request_with_retry, MAX_RETRIES, retryLoop, hsucc, numSends]
    · have h0 : ¬resp 0 < 500 := by have := hprev 0 (by omega); omega
      refine ⟨?_, ?_, ?_⟩ <;>
        simp [request_with_retry, MAX_RETRIES, RETRY_BACKOFF_MS, retryLoop,
          h0, hsucc, numSends]
    · have h0 : ¬resp 0 < 500 := by have := hprev 0 (by omega); omega
      have h1 : ¬resp 1 < 500 := by have := hprev 1 (by omega); omega
      refine ⟨?_, ?_, ?_⟩ <;>
        simp [request_with_retry, MAX_RETRIES, RETRY_BACKOFF_MS, retryLoop,
          h0, h1, hsucc, numSends]
  · intro hall
    have h0 : ¬resp 0 < 500 := by have := hall 0 (by decide); omega
    have h1 : ¬resp 1 < 500 := by have := hall 1 (by decide); omega
    have h2 : ¬resp 2 < 500 := by have := hall 2 (by decide); omega
    exact retry_allfail_run resp h0 h1 h2

/-- C2 witness: an immediate 200 is returned after one send; a persistent
500 raises the last error after three sends and the 500/1000 schedule. -/
theorem c2_retry_policy_witness :
    ((request_with_retry (fun _ => 200)).2 = Except.ok 0 ∧
      numSends (request_with_retry (fun _ => 200)).1 = 0 + 1 ∧
      (request_with_retry (fun _ => 200)).1.getLast? =
        some (Event.send 0 200)) ∧
    request_with_retry (fun _ => 500) =
      ([Event.throttleEv, Event.send 0 500, Event.sleepEv 500,
        Event.throttleEv, Event.send 1 500, Event.sleepEv 1000,
        Event.throttleEv, Event.send 2 500, Event.sleepEv 2000],
       Except.error (some 2)) :=
  ⟨(c2_retry_policy (fun _ => 200)).1 0 (by decide) (by decide)
      (fun j hj => absurd hj (by omega)),
   (c2_retry_policy (fun _ => 500)).2 (fun j _ => by omega)⟩

/-- C7: with successive responses 503, 200, 200, the request is retried
exactly twice in the code's own counting of tries (`_MAX_RETRIES = 3` is
the total number of attempts, logged `attempt k/3`): exactly two requests
are issued, and the returned value is the success of the second and final
attempt — the third response is never requested. -/
theorem c7_retry_503_then_200 :
    request_with_retry (fun n => if n = 0 then 503 else 200) =
      ([Event.throttleEv, Event.send 0 503, Event.sleepEv 500,
        Event.throttleEv, Event.send 1 200], Except.ok 1) ∧
    numSends [Event.throttleEv, Event.send 0 503, Event.sleepEv 500,
      Event.throttleEv, Event.send 1 200] = 2 ∧
    (if (1 : Nat) = 0 then 503 else 200) < 500 := by
  refine ⟨?_, by decide, by decide⟩
  rfl

/-- C10: when all three attempts return a 5xx status, the final 2000 ms
backoff is still slept after the third attempt: the trace ends with the
2000 ms sleep, the sleeps are 500, 1000 and 2000 ms, and only then is the
last server error raised. -/
theorem c10_trailing_backoff :
    ∀ resp : Nat → Nat, (∀ j, j < MAX_RETRIES → 500 ≤ resp j) →
      sleepsOf (request_with_retry resp).1 = [500, 1000, 2000] ∧
      (request_with_retry resp).1.getLast? = some (Event.sleepEv 2000) ∧
      (request_with_retry resp).2 = Except.error (some 2) := by
  intro resp hall
  have h0 : ¬resp 0 < 500 := by have := hall 0 (by decide); omega
  have h1 : ¬resp 1 < 500 := by have := hall 1 (by decide); omega
  have h2 : ¬resp 2 < 500 := by have := hall 2 (by decide); omega
  rw [retry_allfail_run resp h0 h1 h2]
  refine ⟨by simp [sleepsOf], by simp, rfl⟩

/-- C10 witness: the all-5xx schedule at the constant 500 oracle. -/
theorem c10_trailing_backoff_witness :
    sleepsOf (request_with_retry (fun _ => 500)).1 = [500, 1000, 2000] ∧
    (request_with_retry (fun _ => 500)).1.getLast? =
      some (Event.sleepEv 2000) ∧
    (request_with_retry (fun _ => 500)).2 = Except.error (some 2) :=
  c10_trailing_backoff (fun _ => 500) (fun _ _ => le_refl 500)

/-- Helper: one throttle section always spaces the new recorded send time at
least the minimum interval after the previous one. -/
theorem throttle_step_spacing (last d : ℚ) :
    last + REQUEST_INTERVAL_Q ≤ throttle_step last d := by
  simp only [throttle_step]
  split_ifs with h
  · linarith
  · linarith

/-- Helper: the chain of recorded send times. -/
theorem chain_send_times (ds : List ℚ) :
    ∀ last, List.Chain (fun a b => a + REQUEST_INTERVAL_Q ≤ b) last
      (send_times last ds) := by
  induction ds with
  | nil => intro last; exact List.Chain.nil
  | cons d ds ih =>
    intro last
    exact List.Chain.cons (throttle_step_spacing last d) (ih _)

/-- Helper: every send of the retry loop is immediately preceded by a
throttle event. -/
theorem sendsThrottled_retryLoop (resp : Nat → Nat) :
    ∀ (fuel attempt : Nat) (lastExc : Option Nat),
      sendsThrottled (retryLoop resp attempt fuel lastExc).1 = true := by
  intro fuel
  induction fuel with
  | zero => intro attempt lastExc; rfl
  | succ n ih =>
    intro attempt lastExc
    by_cases h : resp attempt < 500
    · simp only [retryLoop, if_pos h]
      rfl
    · simp only [retryLoop, if_neg h]
      exact ih (attempt + 1) (some attempt)

/-- C3: consecutive recorded send times of any sequence of throttle
sections are spaced by at least the minimum interval (0.25 s), whatever the
clock advances between sections (concurrency reduces to such a sequence
because `_rate_lock` serializes the whole section, sleep included); and the
retry loop passes through the throttle before every attempt, so retries are
rate-limited too. -/
theorem c3_throttle_spacing :
    (∀ (last : ℚ) (deltas : List ℚ),
      List.Chain' (fun a b => a + REQUEST_INTERVAL_Q ≤ b)
        (send_times last deltas))
    ∧ (∀ resp : Nat → Nat, sendsThrottled (request_with_retry resp).1 = true) := by
  constructor
  · intro last deltas
    cases deltas with
    | nil => exact List.chain'_nil
    | cons d ds =>
      exact chain_send_times ds (throttle_step last d)
  · intro resp
    exact sendsThrottled_retryLoop resp MAX_RETRIES 0 none

/-- C9: `get_token` refreshes exactly when no token is cached or the check
time is not before the stored expiry (lazy refresh, monotone time, the
post-lock re-check included), and on refresh the new expiry is the refresh
time plus the server-declared `expires_in` minus the 60-second margin; when
it does not refresh it returns the cached token and leaves the cache
untouched. -/
theorem c9_lazy_refresh :
    ∀ (s : TokenState) (t1 t2 t3 : Int) (r : TokenResp),
      t1 ≤ t2 →
      (s.token = none ↔ s.expires = none) →
      (∀ tk, s.token = some tk → tk ≠ "") →
      ((get_token_seq s t1 t2 t3 r).2.2 = true ↔
        (s.token = none ∨ ∃ e, s.expires = some e ∧ e ≤ t1))
      ∧ ((get_token_seq s t1 t2 t3 r).2.2 = true →
          (get_token_seq s t1 t2 t3 r).1.expires =
            some (t3 + (r.expires_in - 60)) ∧
          (get_token_seq s t1 t2 t3 r).2.1 = r.access_token)
      ∧ ((get_token_seq s t1 t2 t3 r).2.2 = false →
          (get_token_seq s t1 t2 t3 r).1 = s ∧
          some (get_token_seq s t1 t2 t3 r).2.1 = s.token) := by
  intro s t1 t2 t3 r h12 hinv htr
  obtain ⟨tok, exp⟩ := s
  cases tok with
  | none =>
    have hexp : exp = none := by simpa using hinv.mp rfl
    subst hexp
    simp [get_token_seq, validAt, truthy, refreshedTS]
  | some tk =>
    have htk : tk ≠ "" := htr tk rfl
    cases exp with
    | none => simp at hinv
    | some e =>
      by_cases he : t1 < e
      · have hv1 : validAt ⟨some tk, some e⟩ t1 = true := by
          simp [validAt, truthy, htk, he]
        refine ⟨?_, ?_, ?_⟩
        · simp [get_token_seq, hv1]
          omega
        · intro h2
          simp [get_token_seq, hv1] at h2
        · intro h2
          simp [get_token_seq, hv1]
      · have hv1 : validAt ⟨some tk, some e⟩ t1 = false := by
          simp [validAt, truthy, htk]
          omega
        have hv2 : validAt ⟨some tk, some e⟩ t2 = false := by
          simp [validAt, truthy, htk]
          omega
        refine ⟨?_, ?_, ?_⟩
        · simp [get_token_seq, hv1, hv2]
          omega
        · intro h2
          simp [get_token_seq, hv1, hv2, refreshedTS]
        · intro h2
          simp [get_token_seq, hv1, hv2] at h2

/-- C9 witness: an empty cache refreshes; with `expires_in = 86400` and the
refresh completing at time 0 the new expiry is 86340. -/
theorem c9_lazy_refresh_witness :
    (get_token_seq ⟨none, none⟩ 0 0 0 ⟨"tok", 86400⟩).2.2 = true ∧
    (get_token_seq ⟨none, none⟩ 0 0 0 ⟨"tok", 86400⟩).1.expires =
      some 86340 := by
  have h := c9_lazy_refresh ⟨none, none⟩ 0 0 0 ⟨"tok", 86400⟩ le_rfl
    (by simp) (fun tk htk => by simp at htk)
  have hr : (get_token_seq ⟨none, none⟩ 0 0 0 ⟨"tok", 86400⟩).2.2 = true :=
    h.1.mpr (Or.inl rfl)
  refine ⟨hr, ?_⟩
  have := (h.2.1 hr).1
  simpa using this

/-- Helper: one interleaving step preserves the single-flight invariant
when the initial cache is empty or expired at the frozen clock. -/
theorem inv_coStep (now : Int) (r : TokenResp) (ts0 : TokenState)
    (h0 : validAt ts0 now = false)
    (h1 : validAt (refreshedTS now r) now = true) :
    ∀ (s s' : SysState) (i : Nat),
      Inv now r ts0 s → coStep now r s i = some s' → Inv now r ts0 s' := by
  intro s s' i hinv hstep
  obtain ⟨hI1, hI2, hI3, hI4, hI5, hI6⟩ := hinv
  cases hc : s.cos[i]? with
  | none =>
    simp only [coStep, hc] at hstep
    exact Option.noConfusion hstep
  | some pc =>
    have hi_lt : i < s.cos.length := (List.getElem?_eq_some_iff.mp hc).1
    simp only [coStep, hc] at hstep
    cases pc with
    | start =>
      by_cases hval : validAt s.ts now = true
      · rw [if_pos hval] at hstep
        injection hstep with hstep
        subst hstep
        have hrc : s.refreshCount = 1 := by
          rcases Nat.eq_zero_or_pos s.refreshCount with hz | hp
          · exfalso
            rw [hI2 hz, h0] at hval
            exact Bool.noConfusion hval
          · omega
        have hts := hI3 hrc
        have hres : s.ts.token.getD "" = r.access_token := by rw [hts]; rfl
        refine ⟨hI1, hI2, hI3, ?_, ?_, ?_⟩
        · intro j hj
          replace hj :
              (s.cos.set i (CoPC.done (s.ts.token.getD "")))[j]? =
                some CoPC.inflight := hj
          rw [List.getElem?_set] at hj
          by_cases hij : i = j
          · rw [if_pos hij, if_pos hi_lt] at hj
            exact absurd hj (by simp)
          · rw [if_neg hij] at hj
            exact hI4 j hj
        · intro j hlj
          replace hlj : s.lock = some j := hlj
          exact absurd (hI4 j (hI5 j hlj)).2 (by omega)
        · intro res hmem
          replace hmem :
              CoPC.done res ∈ s.cos.set i (CoPC.done (s.ts.token.getD "")) :=
            hmem
          rcases List.mem_or_eq_of_mem_set hmem with hmem2 | heq
          · exact hI6 res hmem2
          · injection heq with heq
            exact ⟨heq.trans hres, hrc⟩
      · rw [if_neg hval] at hstep
        injection hstep with hstep
        subst hstep
        refine ⟨hI1, hI2, hI3, ?_, ?_, ?_⟩
        · intro j hj
          replace hj :
              (s.cos.set i CoPC.waitLock)[j]? = some CoPC.inflight := hj
          rw [List.getElem?_set] at hj
          by_cases hij : i = j
          · rw [if_pos hij, if_pos hi_lt] at hj
            exact absurd hj (by simp)
          · rw [if_neg hij] at hj
            exact hI4 j hj
        · intro j hlj
          replace hlj : s.lock = some j := hlj
          have hj := hI5 j hlj
          have hij : i ≠ j := by
            intro hh
            rw [hh] at hc
            rw [hc] at hj
            exact absurd hj (by simp)
          show (s.cos.set i CoPC.waitLock)[j]? = some CoPC.inflight
          rw [List.getElem?_set, if_neg hij]
          exact hj
        · intro res hmem
          replace hmem : CoPC.done res ∈ s.cos.set i CoPC.waitLock := hmem
          rcases List.mem_or_eq_of_mem_set hmem with hmem2 | heq
          · exact hI6 res hmem2
          · exact absurd heq (by simp)
    | waitLock =>
      cases hl : s.lock with
      | some holder =>
        simp only [hl] at hstep
        exact Option.noConfusion hstep
      | none =>
        simp only [hl] at hstep
        by_cases hval : validAt s.ts now = true
        · rw [if_pos hval] at hstep
          injection hstep with hstep
          subst hstep
          have hrc : s.refreshCount = 1 := by
            rcases Nat.eq_zero_or_pos s.refreshCount with hz | hp
            · exfalso
              rw [hI2 hz, h0] at hval
              exact Bool.noConfusion hval
            · omega
          have hts := hI3 hrc
          have hres : s.ts.token.getD "" = r.access_token := by rw [hts]; rfl
          refine ⟨hI1, hI2, hI3, ?_, ?_, ?_⟩
          · intro j hj
            replace hj :
                (s.cos.set i (CoPC.done (s.ts.token.getD "")))[j]? =
                  some CoPC.inflight := hj
            rw [List.getElem?_set] at hj
            by_cases hij : i = j
            · rw [if_pos hij, if_pos hi_lt] at hj
              exact absurd hj (by simp)
            · rw [if_neg hij] at hj
              have h4 := (hI4 j hj).1
              rw [hl] at h4
              exact Option.noConfusion h4
          · intro j hlj
            replace hlj : (none : Option Nat) = some j := hlj
            exact Option.noConfusion hlj
          · intro res hmem
            replace hmem :
                CoPC.done res ∈ s.cos.set i (CoPC.done (s.ts.token.getD "")) :=
              hmem
            rcases List.mem_or_eq_of_mem_set hmem with hmem2 | heq
            · exact hI6 res hmem2
            · injection heq with heq
              exact ⟨heq.trans hres, hrc⟩
        · rw [if_neg hval] at hstep
          injection hstep with hstep
          subst hstep
          have hrc0 : s.refreshCount = 0 := by
            rcases Nat.eq_zero_or_pos s.refreshCount with hz | hp
            · exact hz
            · exfalso
              have h1' : s.refreshCount = 1 := by omega
              rw [hI3 h1'] at hval
              exact hval h1
          refine ⟨hI1, hI2, hI3, ?_, ?_, ?_⟩
          · intro j hj
            replace hj :
                (s.cos.set i CoPC.inflight)[j]? = some CoPC.inflight := hj
            rw [List.getElem?_set] at hj
            by_cases hij : i = j
            · subst hij
              exact ⟨rfl, hrc0⟩
            · rw [if_neg hij] at hj
              have h4 := (hI4 j hj).1
              rw [hl] at h4
              exact Option.noConfusion h4
          · intro j hlj
            replace hlj : some i = some j := hlj
            injection hlj with hlj
            subst hlj
            show (s.cos.set i CoPC.inflight)[i]? = some CoPC.inflight
            rw [List.getElem?_set, if_pos rfl, if_pos hi_lt]
          · intro res hmem
            replace hmem : CoPC.done res ∈ s.cos.set i CoPC.inflight := hmem
            rcases List.mem_or_eq_of_mem_set hmem with hmem2 | heq
            · exact absurd (hI6 res hmem2).2 (by omega)
            · exact absurd heq (by simp)
    | inflight =>
      injection hstep with hstep
      subst hstep
      have hlock := hI4 i hc
      have hrc0 := hlock.2
      refine ⟨?_, ?_, fun _ => rfl, ?_, ?_, ?_⟩
      · show s.refreshCount + 1 ≤ 1
        omega
      · intro hz
        replace hz : s.refreshCount + 1 = 0 := hz
        exact absurd hz (by omega)
      · intro j hj
        replace hj :
            (s.cos.set i (CoPC.done r.access_token))[j]? =
              some CoPC.inflight := hj
        rw [List.getElem?_set] at hj
        by_cases hij : i = j
        · rw [if_pos hij, if_pos hi_lt] at hj
          exact absurd hj (by simp)
        · rw [if_neg hij] at hj
          have h4 := (hI4 j hj).1
          rw [hlock.1] at h4
          injection h4 with h4
          exact absurd h4 hij
      · intro j hlj
        replace hlj : (none : Option Nat) = some j := hlj
        exact Option.noConfusion hlj
      · intro res hmem
        replace hmem :
            CoPC.done res ∈ s.cos.set i (CoPC.done r.access_token) := hmem
        rcases List.mem_or_eq_of_mem_set hmem with hmem2 | heq
        · exact absurd (hI6 res hmem2).2 (by omega)
        · injection heq with heq
          refine ⟨heq, ?_⟩
          show s.refreshCount + 1 = 1
          omega
    | done result =>
      exact Option.noConfusion hstep

/-- Helper: a whole schedule preserves any property preserved by single
steps. -/
theorem runSched_preserves (now : Int) (r : TokenResp) (P : SysState → Prop)
    (hP : ∀ s s' i, P s → coStep now r s i = some s' → P s') :
    ∀ (sched : List Nat) (s : SysState), P s → P (runSched now r s sched) := by
  intro sched
  induction sched with
  | nil => intro s h; exact h
  | cons i rest ih =>
    intro s h
    show P (match coStep now r s i with
      | none => runSched now r s rest
      | some s2 => runSched now r s2 rest)
    cases hc : coStep now r s i with
    | none => exact ih s h
    | some s2 => exact ih s2 (hP s s2 i h hc)

/-- Helper: the initial burst state satisfies the single-flight invariant. -/
theorem inv_init (now : Int) (r : TokenResp) (ts0 : TokenState) (n : Nat) :
    Inv now r ts0 (initState n ts0) := by
  refine ⟨Nat.zero_le 1, fun _ => rfl, ?_, ?_, ?_, ?_⟩
  · intro h
    replace h : (0 : Nat) = 1 := h
    exact absurd h (by omega)
  · intro j hj
    replace hj : (List.replicate n CoPC.start)[j]? = some CoPC.inflight := hj
    rw [List.getElem?_replicate] at hj
    split_ifs at hj
    exact absurd hj (by simp)
  · intro j hlj
    replace hlj : (none : Option Nat) = some j := hlj
    exact Option.noConfusion hlj
  · intro res hres
    replace hres : CoPC.done res ∈ List.replicate n CoPC.start := hres
    rw [List.mem_replicate] at hres
    exact absurd hres.2 (by simp)

/-- Helper: one interleaving step preserves the no-refresh invariant when
the initial cache is valid at the frozen clock. -/
theorem invV_coStep (now : Int) (r : TokenResp) (ts0 : TokenState)
    (hv : validAt ts0 now = true) :
    ∀ (s s' : SysState) (i : Nat),
      InvV ts0 s → coStep now r s i = some s' → InvV ts0 s' := by
  intro s s' i hinv hstep
  obtain ⟨hts, hrc, hlock, hpcs⟩ := hinv
  cases hc : s.cos[i]? with
  | none =>
    simp only [coStep, hc] at hstep
    exact Option.noConfusion hstep
  | some pc =>
    rcases hpcs pc (List.getElem?_mem hc) with hpc | hpc
    · subst hpc
      simp only [coStep, hc] at hstep
      have hval : validAt s.ts now = true := by rw [hts]; exact hv
      rw [if_pos hval] at hstep
      injection hstep with hstep
      subst hstep
      refine ⟨hts, hrc, hlock, ?_⟩
      intro pc2 hmem
      replace hmem :
          pc2 ∈ s.cos.set i (CoPC.done (s.ts.token.getD "")) := hmem
      rcases List.mem_or_eq_of_mem_set hmem with hmem2 | heq
      · exact hpcs pc2 hmem2
      · right
        rw [heq, hts]
    · subst hpc
      simp only [coStep, hc] at hstep
      exact Option.noConfusion hstep

/-- Helper: the initial burst state satisfies the no-refresh invariant. -/
theorem invV_init (ts0 : TokenState) (n : Nat) : InvV ts0 (initState n ts0) := by
  refine ⟨rfl, rfl, rfl, ?_⟩
  intro pc hmem
  replace hmem : pc ∈ List.replicate n CoPC.start := hmem
  rw [List.mem_replicate] at hmem
  exact Or.inl hmem.2

/-- C1: for every burst of `n` concurrent `get_token` callers and every
interleaving, if the cache starts empty or expired then at most one POST to
the token endpoint happens, any caller that has returned got the one
refreshed token and by then exactly one POST had happened; if the cache
starts with an unexpired token, no POST ever happens and every caller that
has returned got the cached token.  (Hypotheses: the server token is a
non-empty string and its lifetime exceeds the 60 s safety margin.) -/
theorem c1_single_flight :
    ∀ (now : Int) (r : TokenResp) (ts0 : TokenState) (n : Nat)
      (sched : List Nat),
      r.access_token ≠ "" → 60 < r.expires_in →
      ((validAt ts0 now = false →
        (runSched now r (initState n ts0) sched).refreshCount ≤ 1 ∧
        (∀ res,
          CoPC.done res ∈ (runSched now r (initState n ts0) sched).cos →
          res = r.access_token ∧
          (runSched now r (initState n ts0) sched).refreshCount = 1))
      ∧ (validAt ts0 now = true →
        (runSched now r (initState n ts0) sched).refreshCount = 0 ∧
        (∀ res,
          CoPC.done res ∈ (runSched now r (initState n ts0) sched).cos →
          ts0.token = some res))) := by
  intro now r ts0 n sched htok hlife
  constructor
  · intro h0
    have h1 : validAt (refreshedTS now r) now = true := by
      simp [validAt, refreshedTS, truthy, htok]
      omega
    have hinv := runSched_preserves now r (Inv now r ts0)
      (inv_coStep now r ts0 h0 h1) sched (initState n ts0)
      (inv_init now r ts0 n)
    exact ⟨hinv.1, fun res hres => hinv.2.2.2.2.2 res hres⟩
  · intro hv
    have hinv := runSched_preserves now r (InvV ts0)
      (invV_coStep now r ts0 hv) sched (initState n ts0) (invV_init ts0 n)
    refine ⟨hinv.2.1, ?_⟩
    intro res hres
    rcases hinv.2.2.2 (CoPC.done res) hres with hcon | hcon
    · exact absurd hcon (by simp)
    · injection hcon with hcon
      cases hts : ts0.token with
      | none =>
        simp [validAt, truthy, hts] at hv
      | some tk =>
        rw [hts] at hcon
        simp only [Option.getD_some] at hcon
        rw [hcon]

/-- C1 witness: two callers against an expired cache under a concrete
interleaving finish with exactly one refresh and the refreshed token. -/
theorem c1_single_flight_witness :
    (runSched 0 ⟨"tok", 86400⟩ (initState 2 ⟨none, none⟩)
      [0, 1, 0, 1, 0, 1]).refreshCount ≤ 1 ∧
    ("tok" = (⟨"tok", 86400⟩ : TokenResp).access_token ∧
      (runSched 0 ⟨"tok", 86400⟩ (initState 2 ⟨none, none⟩)
        [0, 1, 0, 1, 0, 1]).refreshCount = 1) := by
  have h := (c1_single_flight 0 ⟨"tok", 86400⟩ ⟨none, none⟩ 2
    [0, 1, 0, 1, 0, 1] (by decide) (by decide)).1 (by decide)
  exact ⟨h.1, h.2 "tok" (by decide)⟩

end KIS
